import Mathlib

/-!
A verification development for the pooled-writer library
(src/src/lib.rs and src/src/bgzf.rs).

Bytes are modelled as natural numbers.  The two channels a `PooledWriter`
sends on (the per-sink ordered queue `writer_tx` and the shared compressor
queue `compressor_tx`) are modelled by an interleaved event trace recorded in
the writer state, together with two booleans saying whether the respective
channel still has a live receiver.  One-shot reply channels are numbered by
creation order (`nextBlockId`); the event `enqueueReply k` records the receive
end of reply channel `k` being sent onto the sink's ordered queue, and
`sendJob k wi d l` records the compression job for block `k` (destination sink
`wi`, payload `d`, terminal flag `l`) being sent onto the shared compressor
queue.
-/

set_option maxHeartbeats 1000000

/-- The default block size of the Compressor trait (src/src/lib.rs:275), which
is also the value of the external crate's BGZF_BLOCK_SIZE used by
BgzfCompressor (src/src/bgzf.rs:13): 65280 bytes of uncompressed input per
block. -/
def BGZF_BLOCK_SIZE : Nat := 65280

/-- Events observable on the two channels a pooled writer sends on. -/
inductive Event where
  | enqueueReply (blockId : Nat)
  | sendJob (blockId : Nat) (writerIndex : Nat) (data : List Nat) (isLast : Bool)
deriving DecidableEq

/-- Errors surfaced by pooled-writer operations.  `channelSend` models the
io error wrapping PoolError::ChannelSend (src/src/lib.rs:209, 212); `stuck`
marks the write loop's no-progress case, reachable only from a state whose
buffer is already at least full, which never happens for a writer created with
a positive block size (the source loop would spin forever there). -/
inductive WErr where
  | channelSend
  | stuck
deriving DecidableEq

/-- The state of a PooledWriter (src/src/lib.rs:141-155) together with the
instrumentation trace of its channel sends. -/
structure WState where
  writerIndex : Nat
  buffer : List Nat
  bufferSize : Nat
  nextBlockId : Nat
  trace : List Event
  writerTxOpen : Bool
  compressorTxOpen : Bool
deriving DecidableEq

/-- PooledWriter::new (src/src/lib.rs:165-180): empty buffer with the
compressor's block size as capacity, both channels live. -/
def PooledWriter.new (index : Nat) (blockSize : Nat) : WState where
  writerIndex := index
  buffer := []
  bufferSize := blockSize
  nextBlockId := 0
  trace := []
  writerTxOpen := true
  compressorTxOpen := true

/-- PooledWriter::buffer_full (src/src/lib.rs:184-186). -/
def PooledWriter.buffer_full (s : WState) : Bool :=
  s.buffer.length == s.bufferSize

/-- PooledWriter::send_block (src/src/lib.rs:203-213): take the whole buffer,
create a one-shot reply channel, send its receive end on the sink's ordered
queue, then send the compression job on the shared compressor queue; a send on
a channel whose receivers are gone yields the ChannelSend error. -/
def PooledWriter.send_block (s : WState) (isLast : Bool) : WState × Option WErr :=
  let id := s.nextBlockId
  let data := s.buffer
  let s1 : WState := { s with buffer := [], nextBlockId := id + 1 }
  if s1.writerTxOpen then
    let s2 : WState := { s1 with trace := s1.trace ++ [Event.enqueueReply id] }
    if s2.compressorTxOpen then
      ({ s2 with trace := s2.trace ++ [Event.sendJob id s.writerIndex data isLast] }, none)
    else
      (s2, some WErr.channelSend)
  else
    (s1, some WErr.channelSend)

/-- PooledWriter::flush_bytes (src/src/lib.rs:195-200): send a block only when
`is_last` is set or the buffer is exactly full. -/
def PooledWriter.flush_bytes (s : WState) (isLast : Bool) : WState × Option WErr :=
  if isLast || PooledWriter.buffer_full s then
    PooledWriter.send_block s isLast
  else
    (s, none)

/-- The loop body of Write::write for PooledWriter (src/src/lib.rs:235-244).
The `fuel` argument bounds the number of loop iterations; `write` passes
`buf.length + 1`, which is enough because every iteration of the source loop
either consumes at least one byte or (when the buffer is already exactly full)
dispatches the buffer and then consumes bytes.  If the fuel runs out the source
loop would be spinning without progress (possible only with a zero block size);
this is reported as `WErr.stuck`. -/
def PooledWriter.writeAux : Nat → WState → List Nat → WState × Option WErr
  | _, s, [] => (s, none)
  | 0, s, _ :: _ => (s, some WErr.stuck)
  | fuel + 1, s, b :: bs =>
    let n := min (b :: bs).length (s.bufferSize - s.buffer.length)
    let s1 : WState := { s with buffer := s.buffer ++ (b :: bs).take n }
    if PooledWriter.buffer_full s1 then
      match PooledWriter.send_block s1 false with
      | (s2, none) => PooledWriter.writeAux fuel s2 ((b :: bs).drop n)
      | (s2, some e) => (s2, some e)
    else
      PooledWriter.writeAux fuel s1 ((b :: bs).drop n)

/-- Write::write for PooledWriter (src/src/lib.rs:232-247): consume the whole
slice, emitting a non-terminal block each time the buffer becomes exactly
full; on success return the full length of the slice. -/
def PooledWriter.write (s : WState) (buf : List Nat) : WState × Except WErr Nat :=
  match PooledWriter.writeAux (buf.length + 1) s buf with
  | (s', none) => (s', Except.ok buf.length)
  | (s', some e) => (s', Except.error e)

/-- Write::flush for PooledWriter (src/src/lib.rs:250-252):
`self.flush_bytes(false)`. -/
def PooledWriter.flush (s : WState) : WState × Option WErr :=
  PooledWriter.flush_bytes s false

/-- PooledWriter::close (src/src/lib.rs:216-218): `self.flush_bytes(true)`. -/
def PooledWriter.close (s : WState) : WState × Option WErr :=
  PooledWriter.flush_bytes s true

/-- Drop for PooledWriter (src/src/lib.rs:221-228): `self.flush_bytes(true)`
(the source unwraps the result, turning an error into a panic). -/
def PooledWriter.drop (s : WState) : WState × Option WErr :=
  PooledWriter.flush_bytes s true

/-- A producer-side operation on a pooled writer during its lifetime before
close or drop. -/
inductive Op where
  | write (buf : List Nat)
  | flush
deriving DecidableEq

/-- Apply one producer-side operation. -/
def applyOp (s : WState) : Op → WState × Option WErr
  | Op.write buf =>
    match PooledWriter.write s buf with
    | (s', Except.ok _) => (s', none)
    | (s', Except.error e) => (s', some e)
  | Op.flush => PooledWriter.flush s

/-- Run a sequence of producer-side operations, stopping at the first error
(the source surfaces the error to the caller). -/
def runOps (s : WState) : List Op → WState × Option WErr
  | [] => (s, none)
  | op :: ops =>
    match applyOp s op with
    | (s', none) => runOps s' ops
    | (s', some e) => (s', some e)

/-- The block id carried by an event. -/
def eventId : Event → Nat
  | Event.enqueueReply k => k
  | Event.sendJob k _ _ _ => k

/-- A compression job as it appears on the shared compressor queue
(CompressorMessage, src/src/lib.rs:304-313). -/
structure JobInfo where
  blockId : Nat
  writerIndex : Nat
  data : List Nat
  isLast : Bool
deriving DecidableEq

/-- The compression jobs sent on the compressor queue, in dispatch order. -/
def jobsOf (t : List Event) : List JobInfo :=
  t.filterMap fun e =>
    match e with
    | Event.sendJob k wi d l => some ⟨k, wi, d, l⟩
    | Event.enqueueReply _ => none

/-- The reply-receiver ids enqueued on the sink's ordered queue, in queue
order. -/
def enqIds (t : List Event) : List Nat :=
  t.filterMap fun e =>
    match e with
    | Event.enqueueReply k => some k
    | Event.sendJob _ _ _ _ => none

/-- Check that every compression job in the trace is preceded by the enqueue of
its reply receiver, given the set of reply ids already enqueued. -/
def okFromB : List Nat → List Event → Bool
  | _, [] => true
  | seen, Event.enqueueReply k :: rest => okFromB (k :: seen) rest
  | seen, Event.sendJob k _ _ _ :: rest => seen.contains k && okFromB seen rest

/-- The reply ids enqueued after processing a trace. -/
def seenAfter : List Nat → List Event → List Nat
  | seen, [] => seen
  | seen, Event.enqueueReply k :: rest => seenAfter (k :: seen) rest
  | seen, Event.sendJob _ _ _ _ :: rest => seenAfter seen rest

/-- The events appended by an uninterrupted run of non-terminal block
dispatches: block ids count up from `base`, every job immediately follows the
enqueue of its reply receiver, and every job is non-terminal. -/
def pairSegs (wi : Nat) : Nat → List (List Nat) → List Event
  | _, [] => []
  | base, d :: ds =>
    Event.enqueueReply base :: Event.sendJob base wi d false :: pairSegs wi (base + 1) ds

/-- The configuration recorded by PoolBuilder::new (src/src/lib.rs:385-395);
the channels themselves are not needed for the claims about the builder. -/
structure PoolBuilderState where
  writerIndex : Nat
  queueSize : Nat
  threads : Nat
deriving DecidableEq

/-- PoolBuilder::new (src/src/lib.rs:374-396): asserts `threads > 0` and then
`queue_size > threads`; an assertion failure (abort) is modelled as `none`. -/
def PoolBuilder.new (queueSize threads : Nat) : Option PoolBuilderState :=
  if threads > 0 then
    if queueSize > threads then
      some { writerIndex := 0, queueSize := queueSize, threads := threads }
    else
      none
  else
    none

/-- The error taxonomy of PoolError (src/src/lib.rs:116-127). -/
inductive PErr where
  | channelSend
  | channelReceive
  | compressionError (msg : String)
  | ioError
deriving DecidableEq

/-- Combine a list of results, stopping at the first error, as
Iterator::try_for_each does over the joined worker handles and over the sink
flushes (src/src/lib.rs:565, 571). -/
def tryForEach : List (Except PErr Unit) → Except PErr Unit
  | [] => Except.ok ()
  | Except.error e :: _ => Except.error e
  | Except.ok _ :: rest => tryForEach rest

/-- The tail of Pool::pool_main after the worker loop (src/src/lib.rs:564-573):
the workers are joined and their results combined with try_for_each, but that
combined result is discarded (the statement at lib.rs:565-568 ends with a
semicolon and no question mark), then every sink is flushed, with flush errors
propagated.  Worker panics, re-raised by resume_unwind, are outside the model. -/
def pool_main_tail (workerResults : List (Except PErr Unit))
    (flushResults : List (Except PErr Unit)) : Except PErr Unit :=
  let _workerOutcome := tryForEach workerResults
  match tryForEach flushResults with
  | Except.error e => Except.error e
  | Except.ok _ => Except.ok ()

/-- Pool::stop_pool (src/src/lib.rs:580-600): drain and drop the channels, join
the pool thread and return the pool thread's result, which is the value
computed by pool_main. -/
def stop_pool (workerResults flushResults : List (Except PErr Unit)) : Except PErr Unit :=
  pool_main_tail workerResults flushResults

/-- Modelled from the spec: the 28-byte empty BGZF EOF block appended by the
external bgzf crate's Compressor::append_eof, which is not part of this
repository ("terminated by the 28-byte empty BGZF EOF block"). -/
def bgzfEofMarker : List Nat :=
  [0x1f, 0x8b, 0x08, 0x04, 0x00, 0x00, 0x00, 0x00, 0x00, 0xff, 0x06, 0x00,
   0x42, 0x43, 0x02, 0x00, 0x1b, 0x00, 0x03, 0x00, 0x00, 0x00, 0x00, 0x00,
   0x00, 0x00, 0x00, 0x00]

/-- BgzfCompressor::compress (src/src/bgzf.rs:27-38).  The external crate's
bgzf::Compressor::compress, which appends one compressed block for `input` to
`output`, is abstracted as the function `innerCompress` giving the block it
appends (or a compression error); when `is_last` is set,
bgzf::Compressor::append_eof then appends the EOF marker. -/
def BgzfCompressor.compress (innerCompress : List Nat → Except String (List Nat))
    (input output : List Nat) (isLast : Bool) : Except String (List Nat) :=
  match innerCompress input with
  | Except.error e => Except.error e
  | Except.ok block =>
    Except.ok (output ++ block ++ (if isLast then bgzfEofMarker else []))

/-- A compression job as held by the shared compressor queue inside the pool
(CompressorMessage with the one-shot sender identified by `replyId`). -/
structure Job where
  writerIndex : Nat
  data : List Nat
  isLast : Bool
  replyId : Nat
deriving DecidableEq

/-- The pool-side state visible to one worker of Pool::pool_main
(src/src/lib.rs:492-512): the shared compressor queue, the shared write-ready
queue of sink indices, the per-sink ordered queues of reply-receiver ids, the
fulfilled one-shot replies, the bytes written to each sink, whether the
senders of the per-sink queues have been dropped, and whether the shutdown
channel is disconnected. -/
structure PState where
  compressorQueue : List Job
  writeAvailable : List Nat
  sinkQueues : List (List Nat)
  replies : List (Nat × List Nat)
  sinks : List (List Nat)
  sinkSendersDropped : Bool
  shutdownDisconnected : Bool
deriving DecidableEq

/-- Outcome of the try-compress half of a worker iteration. -/
inductive CompTry where
  | noWork
  | compressed (s : PState)
  | fault
deriving DecidableEq

/-- The compression step of a worker iteration (src/src/lib.rs:518-532): pop
one job, compress it, fulfil its one-shot reply, signal the sink index on the
write-ready queue.  The discarded send results at lib.rs:529-530 always
succeed in the model; a compression error returns from the worker (`fault`). -/
def tryCompress (comp : List Nat → Bool → Except String (List Nat)) (s : PState) : CompTry :=
  match s.compressorQueue with
  | [] => CompTry.noWork
  | job :: rest =>
    match comp job.data job.isLast with
    | Except.error _ => CompTry.fault
    | Except.ok compressed =>
      CompTry.compressed { s with
        compressorQueue := rest,
        replies := s.replies ++ [(job.replyId, compressed)],
        writeAvailable := s.writeAvailable ++ [job.writerIndex] }

/-- Outcome of the try-write half of a worker iteration. -/
inductive WriteTry where
  | noWork
  | wrote (s : PState)
  | blocked
  | fault
deriving DecidableEq

/-- The write step of a worker iteration (src/src/lib.rs:535-542): pop one
sink index from the write-ready queue, lock that sink, blocking-receive the
next reply receiver from the sink's ordered queue, blocking-receive the
compressed bytes on it, and write them to the sink.  A blocking receive on an
empty queue whose senders are gone is a receive error that returns from the
worker (`fault`); on an empty queue with live senders the worker waits
(`blocked`); an out-of-range sink index is a panic, also `fault`.  The sink
write itself is modelled as always succeeding. -/
def tryWrite (s : PState) : WriteTry :=
  match s.writeAvailable with
  | [] => WriteTry.noWork
  | wi :: rest =>
    match s.sinkQueues.get? wi, s.sinks.get? wi with
    | some q, some sink =>
      match q with
      | [] => if s.sinkSendersDropped then WriteTry.fault else WriteTry.blocked
      | replyId :: qrest =>
        match List.lookup replyId s.replies with
        | none => WriteTry.blocked
        | some bytes =>
          WriteTry.wrote { s with
            writeAvailable := rest,
            sinkQueues := s.sinkQueues.set wi qrest,
            replies := s.replies.filter (fun p => p.1 != replyId),
            sinks := s.sinks.set wi (sink ++ bytes) }
    | _, _ => WriteTry.fault

/-- Outcome of one whole worker iteration. -/
inductive StepOut where
  | worked (s : PState)
  | exit
  | sleep
  | blocked
  | fault
deriving DecidableEq

/-- One iteration of the worker loop of Pool::pool_main (src/src/lib.rs:514-557)
for a single worker: try to process one compression message, then one write
message; if neither yielded work, break out of the loop when the shutdown
channel is disconnected and the write-ready queue, the compressor queue and
every per-sink ordered queue are empty, and otherwise sleep. -/
def workerStep (comp : List Nat → Bool → Except String (List Nat)) (s : PState) : StepOut :=
  match tryCompress comp s with
  | CompTry.fault => StepOut.fault
  | CompTry.compressed s1 =>
    match tryWrite s1 with
    | WriteTry.wrote s2 => StepOut.worked s2
    | WriteTry.fault => StepOut.fault
    | WriteTry.blocked => StepOut.blocked
    | WriteTry.noWork => StepOut.worked s1
  | CompTry.noWork =>
    match tryWrite s with
    | WriteTry.wrote s2 => StepOut.worked s2
    | WriteTry.fault => StepOut.fault
    | WriteTry.blocked => StepOut.blocked
    | WriteTry.noWork =>
      if s.shutdownDisconnected && s.writeAvailable.isEmpty
          && s.compressorQueue.isEmpty && s.sinkQueues.all List.isEmpty then
        StepOut.exit
      else
        StepOut.sleep

lemma send_block_open (s : WState) (l : Bool) (hw : s.writerTxOpen = true)
    (hc : s.compressorTxOpen = true) :
    PooledWriter.send_block s l =
      ({ s with buffer := [], nextBlockId := s.nextBlockId + 1,
                trace := s.trace ++ [Event.enqueueReply s.nextBlockId,
                  Event.sendJob s.nextBlockId s.writerIndex s.buffer l] }, none) := by
  simp [PooledWriter.send_block, hw, hc]

lemma okFromB_append (u v : List Event) : ∀ seen,
    okFromB seen (u ++ v) = (okFromB seen u && okFromB (seenAfter seen u) v) := by
  induction u with
  | nil => intro seen; simp [okFromB, seenAfter]
  | cons e rest ih =>
    intro seen
    cases e with
    | enqueueReply k => simp [okFromB, seenAfter, ih]
    | sendJob k wi d l => simp [okFromB, seenAfter, ih, Bool.and_assoc]

lemma okFromB_pairSegs (wi : Nat) : ∀ (ds : List (List Nat)) (base : Nat) (seen : List Nat),
    okFromB seen (pairSegs wi base ds) = true := by
  intro ds
  induction ds with
  | nil => intro base seen; rfl
  | cons d ds ih => intro base seen; simp [pairSegs, okFromB, ih]

lemma eventId_pairSegs (wi : Nat) : ∀ (ds : List (List Nat)) (base : Nat) (e : Event),
    e ∈ pairSegs wi base ds → base ≤ eventId e ∧ eventId e < base + ds.length := by
  intro ds
  induction ds with
  | nil => intro base e h; simp [pairSegs] at h
  | cons d ds ih =>
    intro base e h
    simp only [pairSegs, List.mem_cons] at h
    rcases h with h | h | h
    · subst h; simp [eventId]
    · subst h; simp [eventId]
    · have := ih (base + 1) e h
      constructor
      · omega
      · simp only [List.length_cons]; omega

lemma mem_enqIds {t : List Event} {x : Nat} (h : x ∈ enqIds t) :
    Event.enqueueReply x ∈ t := by
  simp only [enqIds, List.mem_filterMap] at h
  rcases h with ⟨e, he, hfe⟩
  cases e with
  | enqueueReply k =>
    simp only [Option.some.injEq] at hfe
    subst hfe; exact he
  | sendJob k wi d l => simp at hfe

lemma mem_jobsOf {t : List Event} {j : JobInfo} (h : j ∈ jobsOf t) :
    Event.sendJob j.blockId j.writerIndex j.data j.isLast ∈ t := by
  simp only [jobsOf, List.mem_filterMap] at h
  rcases h with ⟨e, he, hfe⟩
  cases e with
  | enqueueReply k => simp at hfe
  | sendJob k wi d l =>
    simp only [Option.some.injEq] at hfe
    subst hfe; exact he

lemma chain_lt_append : ∀ (l1 l2 : List Nat), List.Chain' (· < ·) l1 →
    List.Chain' (· < ·) l2 → (∀ x ∈ l1, ∀ y ∈ l2, x < y) →
    List.Chain' (· < ·) (l1 ++ l2)
  | [], l2, _, h2, _ => by simpa using h2
  | [a], l2, _, h2, hb => by
    cases l2 with
    | nil => simp
    | cons y l2' =>
      simp only [List.singleton_append]
      exact List.chain'_cons.mpr ⟨hb a (by simp) y (by simp), h2⟩
  | a :: b :: l1, l2, h1, h2, hb => by
    rcases List.chain'_cons.mp h1 with ⟨hab, h1'⟩
    have ih := chain_lt_append (b :: l1) l2 h1' h2
      (fun x hx y hy => hb x (List.mem_cons_of_mem _ hx) y hy)
    simpa using List.chain'_cons.mpr ⟨hab, by simpa using ih⟩

lemma chain_cons_of_lt {a : Nat} {l : List Nat} (h : List.Chain' (· < ·) l)
    (ha : ∀ x ∈ l, a < x) : List.Chain' (· < ·) (a :: l) := by
  have := chain_lt_append [a] l (List.chain'_singleton a) h
    (by intro x hx y hy; simp at hx; subst hx; exact ha y hy)
  simpa using this

lemma enqIds_pairSegs_cons (wi base : Nat) (d : List Nat) (ds : List (List Nat)) :
    enqIds (pairSegs wi base (d :: ds)) = base :: enqIds (pairSegs wi (base + 1) ds) := by
  simp [pairSegs, enqIds]

lemma chain_enqIds_pairSegs (wi : Nat) : ∀ (ds : List (List Nat)) (base : Nat),
    List.Chain' (· < ·) (enqIds (pairSegs wi base ds)) := by
  intro ds
  induction ds with
  | nil => intro base; simp [pairSegs, enqIds]
  | cons d ds ih =>
    intro base
    rw [enqIds_pairSegs_cons]
    apply chain_cons_of_lt (ih (base + 1))
    intro x hx
    have h := eventId_pairSegs wi ds (base + 1) _ (mem_enqIds hx)
    simp only [eventId] at h
    omega

lemma jobsOf_pairSegs_cons (wi base : Nat) (d : List Nat) (ds : List (List Nat)) :
    jobsOf (pairSegs wi base (d :: ds)) =
      ⟨base, wi, d, false⟩ :: jobsOf (pairSegs wi (base + 1) ds) := by
  simp [pairSegs, jobsOf]

lemma jobsOf_pairSegs_mem (wi : Nat) : ∀ (ds : List (List Nat)) (base : Nat) (j : JobInfo),
    j ∈ jobsOf (pairSegs wi base ds) →
    j.isLast = false ∧ j.writerIndex = wi ∧ j.data ∈ ds := by
  intro ds
  induction ds with
  | nil => intro base j h; simp [pairSegs, jobsOf] at h
  | cons d ds ih =>
    intro base j h
    rw [jobsOf_pairSegs_cons] at h
    rcases List.mem_cons.mp h with h | h
    · subst h; exact ⟨rfl, rfl, by simp⟩
    · have := ih (base + 1) j h
      exact ⟨this.1, this.2.1, List.mem_cons_of_mem _ this.2.2⟩

lemma jobsOf_pairSegs_length (wi : Nat) : ∀ (ds : List (List Nat)) (base : Nat),
    (jobsOf (pairSegs wi base ds)).length = ds.length := by
  intro ds
  induction ds with
  | nil => intro base; simp [pairSegs, jobsOf]
  | cons d ds ih => intro base; rw [jobsOf_pairSegs_cons]; simp [ih]

lemma buffer_full_true {s : WState} (h : s.buffer.length = s.bufferSize) :
    PooledWriter.buffer_full s = true := by
  simp [PooledWriter.buffer_full, h]

lemma buffer_full_false {s : WState} (h : s.buffer.length ≠ s.bufferSize) :
    PooledWriter.buffer_full s = false := by
  simp [PooledWriter.buffer_full, h]


lemma writeAux_live : ∀ (fuel : Nat) (rem : List Nat) (s : WState),
    rem.length ≤ fuel →
    s.writerTxOpen = true → s.compressorTxOpen = true →
    s.buffer.length < s.bufferSize →
    ∃ (s' : WState) (ds : List (List Nat)),
      PooledWriter.writeAux fuel s rem = (s', none) ∧
      s'.writerIndex = s.writerIndex ∧
      s'.bufferSize = s.bufferSize ∧
      s'.writerTxOpen = true ∧
      s'.compressorTxOpen = true ∧
      s'.buffer.length < s'.bufferSize ∧
      s'.nextBlockId = s.nextBlockId + ds.length ∧
      s'.trace = s.trace ++ pairSegs s.writerIndex s.nextBlockId ds ∧
      (∀ d ∈ ds, d.length = s.bufferSize) ∧
      s.buffer.length + rem.length = ds.length * s.bufferSize + s'.buffer.length := by
  intro fuel
  induction fuel with
  | zero =>
    intro rem s hlen hw hc hlt
    have hnil : rem = [] := List.length_eq_zero.mp (Nat.le_zero.mp hlen)
    subst hnil
    exact ⟨s, [], rfl, rfl, rfl, hw, hc, hlt, by simp, by simp [pairSegs],
      by simp, by simp⟩
  | succ fuel ih =>
    intro rem s hlen hw hc hlt
    cases rem with
    | nil =>
      exact ⟨s, [], rfl, rfl, rfl, hw, hc, hlt, by simp, by simp [pairSegs],
        by simp, by simp⟩
    | cons b bs =>
      obtain ⟨n, hn⟩ : ∃ n, n = min (b :: bs).length (s.bufferSize - s.buffer.length) :=
        ⟨_, rfl⟩
      obtain ⟨s1, hs1⟩ :
          ∃ s1 : WState, s1 = { s with buffer := s.buffer ++ List.take n (b :: bs) } :=
        ⟨_, rfl⟩
      have hn1 : 1 ≤ n := by rw [hn]; simp only [List.length_cons]; omega
      have hnle : n ≤ (b :: bs).length := by rw [hn]; exact Nat.min_le_left _ _
      have hnsz : n ≤ s.bufferSize - s.buffer.length := by rw [hn]; exact Nat.min_le_right _ _
      have hs1buf : s1.buffer.length = s.buffer.length + n := by
        rw [hs1]
        simp only [List.length_append, List.length_take, List.length_cons]
        simp only [List.length_cons] at hnle
        omega
      have hs1size : s1.bufferSize = s.bufferSize := by rw [hs1]
      have hs1wi : s1.writerIndex = s.writerIndex := by rw [hs1]
      have hs1nb : s1.nextBlockId = s.nextBlockId := by rw [hs1]
      have hs1tr : s1.trace = s.trace := by rw [hs1]
      have hs1w : s1.writerTxOpen = true := by rw [hs1]; exact hw
      have hs1c : s1.compressorTxOpen = true := by rw [hs1]; exact hc
      have hdroplen : (List.drop n (b :: bs)).length ≤ fuel := by
        simp only [List.length_drop, List.length_cons]
        simp only [List.length_cons] at hlen
        omega
      by_cases hfull : s.buffer.length + n = s.bufferSize
      · -- the buffer becomes exactly full: the block is dispatched and the loop continues
        have hf : PooledWriter.buffer_full s1 = true := by
          apply buffer_full_true; rw [hs1buf, hs1size, hfull]
        have hsb := send_block_open s1 false hs1w hs1c
        obtain ⟨s2, hs2⟩ : ∃ s2 : WState, s2 = { s1 with buffer := ([] : List Nat), nextBlockId := s1.nextBlockId + 1, trace := s1.trace ++ [Event.enqueueReply s1.nextBlockId, Event.sendJob s1.nextBlockId s1.writerIndex s1.buffer false] } := ⟨_, rfl⟩
        rw [← hs2] at hsb
        have hstep : PooledWriter.writeAux (fuel + 1) s (b :: bs) =
            PooledWriter.writeAux fuel s2 (List.drop n (b :: bs)) := by
          simp only [PooledWriter.writeAux]
          rw [← hn, ← hs1, hf, hsb]
          rfl
        have hs2wi : s2.writerIndex = s.writerIndex := by rw [hs2, hs1]
        have hs2size : s2.bufferSize = s.bufferSize := by rw [hs2, hs1]
        have hs2w : s2.writerTxOpen = true := by rw [hs2, hs1]; exact hw
        have hs2c : s2.compressorTxOpen = true := by rw [hs2, hs1]; exact hc
        have hs2nb : s2.nextBlockId = s.nextBlockId + 1 := by rw [hs2, hs1]
        have hs2buf : s2.buffer = ([] : List Nat) := by rw [hs2]
        have hs2tr : s2.trace = s.trace ++ [Event.enqueueReply s.nextBlockId, Event.sendJob s.nextBlockId s.writerIndex (s.buffer ++ List.take n (b :: bs)) false] := by
          rw [hs2, hs1]
        have hs2lt : s2.buffer.length < s2.bufferSize := by
          rw [hs2buf, hs2size]
          simp only [List.length_nil]
          omega
        obtain ⟨s', ds', heq, hwi, hbs, hw', hc', hlt', hnb, htr, hds, hcons⟩ :=
          ih (List.drop n (b :: bs)) s2 hdroplen hs2w hs2c hs2lt
        refine ⟨s', (s.buffer ++ List.take n (b :: bs)) :: ds', ?_, ?_, ?_, hw', hc',
          hlt', ?_, ?_, ?_, ?_⟩
        · rw [hstep]; exact heq
        · rw [hwi, hs2wi]
        · rw [hbs, hs2size]
        · rw [hnb, hs2nb]; simp only [List.length_cons]; omega
        · rw [htr, hs2tr, hs2wi, hs2nb]
          simp [pairSegs, List.append_assoc]
        · intro d hd
          rcases List.mem_cons.mp hd with hd | hd
          · subst hd
            simp only [List.length_append, List.length_take, List.length_cons]
            simp only [List.length_cons] at hnle
            omega
          · rw [hds d hd, hs2size]
        · rw [hs2size] at hcons
          rw [hs2buf] at hcons
          simp only [List.length_nil, List.length_drop, List.length_cons] at hcons
          simp only [List.length_cons]
          rw [Nat.add_mul, Nat.one_mul]
          simp only [List.length_cons] at hnle
          omega
      · -- the buffer is not yet full: no block is dispatched this iteration
        have hf : PooledWriter.buffer_full s1 = false := by
          apply buffer_full_false
          rw [hs1buf, hs1size]
          exact hfull
        have hstep : PooledWriter.writeAux (fuel + 1) s (b :: bs) =
            PooledWriter.writeAux fuel s1 (List.drop n (b :: bs)) := by
          simp only [PooledWriter.writeAux]
          rw [← hn, ← hs1, hf]
          simp
        have hlt1 : s1.buffer.length < s1.bufferSize := by
          rw [hs1buf, hs1size]
          omega
        obtain ⟨s', ds', heq, hwi, hbs, hw', hc', hlt', hnb, htr, hds, hcons⟩ :=
          ih (List.drop n (b :: bs)) s1 hdroplen hs1w hs1c hlt1
        refine ⟨s', ds', ?_, ?_, ?_, hw', hc', hlt', ?_, ?_, ?_, ?_⟩
        · rw [hstep]; exact heq
        · rw [hwi, hs1wi]
        · rw [hbs, hs1size]
        · rw [hnb, hs1nb]
        · rw [htr, hs1tr, hs1wi, hs1nb]
        · intro d hd
          rw [hds d hd, hs1size]
        · rw [hs1size, hs1buf] at hcons
          simp only [List.length_drop, List.length_cons] at hcons
          simp only [List.length_cons]
          simp only [List.length_cons] at hnle
          omega

lemma flush_live (s : WState) (hlt : s.buffer.length < s.bufferSize) :
    PooledWriter.flush s = (s, none) := by
  have hne : s.buffer.length ≠ s.bufferSize := Nat.ne_of_lt hlt
  simp [PooledWriter.flush, PooledWriter.flush_bytes, buffer_full_false hne]

lemma close_live (s : WState) (hw : s.writerTxOpen = true) (hc : s.compressorTxOpen = true) :
    PooledWriter.close s = ({ s with buffer := [], nextBlockId := s.nextBlockId + 1, trace := s.trace ++ [Event.enqueueReply s.nextBlockId, Event.sendJob s.nextBlockId s.writerIndex s.buffer true] }, none) := by
  simp [PooledWriter.close, PooledWriter.flush_bytes, send_block_open s true hw hc]

lemma write_live (s : WState) (buf : List Nat)
    (hw : s.writerTxOpen = true) (hc : s.compressorTxOpen = true)
    (hlt : s.buffer.length < s.bufferSize) :
    ∃ (s' : WState) (ds : List (List Nat)),
      PooledWriter.write s buf = (s', Except.ok buf.length) ∧
      s'.writerIndex = s.writerIndex ∧
      s'.bufferSize = s.bufferSize ∧
      s'.writerTxOpen = true ∧
      s'.compressorTxOpen = true ∧
      s'.buffer.length < s'.bufferSize ∧
      s'.nextBlockId = s.nextBlockId + ds.length ∧
      s'.trace = s.trace ++ pairSegs s.writerIndex s.nextBlockId ds ∧
      (∀ d ∈ ds, d.length = s.bufferSize) ∧
      s.buffer.length + buf.length = ds.length * s.bufferSize + s'.buffer.length := by
  obtain ⟨s', ds, heq, h2, h3, h4, h5, h6, h7, h8, h9, h10⟩ :=
    writeAux_live (buf.length + 1) buf s (by omega) hw hc hlt
  exact ⟨s', ds, by simp [PooledWriter.write, heq], h2, h3, h4, h5, h6, h7, h8, h9, h10⟩

lemma runOps_cons_ok {s s1 : WState} {op : Op} (ops : List Op)
    (h : applyOp s op = (s1, none)) :
    runOps s (op :: ops) = runOps s1 ops := by
  simp [runOps, h]

lemma enqIds_append (u v : List Event) : enqIds (u ++ v) = enqIds u ++ enqIds v := by
  simp [enqIds]

lemma jobsOf_append (u v : List Event) : jobsOf (u ++ v) = jobsOf u ++ jobsOf v := by
  simp [jobsOf]

/-- The per-writer trace invariant: every job's reply receiver was enqueued
before the job was dispatched, the reply receivers are enqueued in strictly
increasing block order, all recorded block ids are below the next fresh id, and
every dispatched job is non-terminal, within the block-size bound, and
addressed to this writer's sink. -/
def TraceOK (s : WState) : Prop :=
  okFromB [] s.trace = true ∧
  List.Chain' (· < ·) (enqIds s.trace) ∧
  (∀ e ∈ s.trace, eventId e < s.nextBlockId) ∧
  (∀ j ∈ jobsOf s.trace, j.isLast = false ∧ j.data.length ≤ s.bufferSize ∧
    j.writerIndex = s.writerIndex)

lemma traceOK_new (idx bsz : Nat) : TraceOK (PooledWriter.new idx bsz) := by
  refine ⟨rfl, ?_, ?_, ?_⟩ <;> simp [PooledWriter.new, enqIds, jobsOf]

lemma traceOK_extend {s s' : WState} (hok : TraceOK s) {ds : List (List Nat)}
    (htr : s'.trace = s.trace ++ pairSegs s.writerIndex s.nextBlockId ds)
    (hnb : s'.nextBlockId = s.nextBlockId + ds.length)
    (hwi : s'.writerIndex = s.writerIndex)
    (hsz : s'.bufferSize = s.bufferSize)
    (hds : ∀ d ∈ ds, d.length ≤ s.bufferSize) : TraceOK s' := by
  obtain ⟨hok1, hok2, hok3, hok4⟩ := hok
  refine ⟨?_, ?_, ?_, ?_⟩
  · rw [htr, okFromB_append, hok1, okFromB_pairSegs]
    rfl
  · rw [htr, enqIds_append]
    apply chain_lt_append _ _ hok2 (chain_enqIds_pairSegs _ ds s.nextBlockId)
    intro x hx y hy
    have hxlt : x < s.nextBlockId := by
      have := hok3 _ (mem_enqIds hx)
      simpa [eventId] using this
    have hyge := (eventId_pairSegs _ ds s.nextBlockId _ (mem_enqIds hy)).1
    simp only [eventId] at hyge
    omega
  · intro e he
    rw [htr] at he
    rcases List.mem_append.mp he with he | he
    · have := hok3 e he
      rw [hnb]
      omega
    · have := (eventId_pairSegs _ ds s.nextBlockId e he).2
      rw [hnb]
      omega
  · intro j hj
    rw [htr, jobsOf_append] at hj
    rcases List.mem_append.mp hj with hj | hj
    · have := hok4 j hj
      rw [hsz, hwi]
      exact this
    · have := jobsOf_pairSegs_mem _ ds s.nextBlockId j hj
      refine ⟨this.1, ?_, by rw [hwi]; exact this.2.1⟩
      rw [hsz]
      exact hds _ this.2.2

lemma runOps_live : ∀ (ops : List Op) (s : WState),
    s.writerTxOpen = true → s.compressorTxOpen = true →
    s.buffer.length < s.bufferSize → TraceOK s →
    ∃ s', runOps s ops = (s', none) ∧
      s'.writerIndex = s.writerIndex ∧
      s'.bufferSize = s.bufferSize ∧
      s'.writerTxOpen = true ∧
      s'.compressorTxOpen = true ∧
      s'.buffer.length < s'.bufferSize ∧
      s.nextBlockId ≤ s'.nextBlockId ∧
      TraceOK s' := by
  intro ops
  induction ops with
  | nil =>
    intro s hw hc hlt hok
    exact ⟨s, rfl, rfl, rfl, hw, hc, hlt, le_refl _, hok⟩
  | cons op ops ih =>
    intro s hw hc hlt hok
    cases op with
    | flush =>
      have hfl : applyOp s Op.flush = (s, none) := flush_live s hlt
      obtain ⟨s', h1, h2, h3, h4, h5, h6, h7, h8⟩ := ih s hw hc hlt hok
      exact ⟨s', by rw [runOps_cons_ok ops hfl]; exact h1, h2, h3, h4, h5, h6, h7, h8⟩
    | write buf =>
      obtain ⟨s1, ds, heqw, hwi1, hsz1, hw1, hc1, hlt1, hnb1, htr1, hds1, hcons1⟩ :=
        write_live s buf hw hc hlt
      have happ : applyOp s (Op.write buf) = (s1, none) := by
        simp [applyOp, heqw]
      have hok1 : TraceOK s1 :=
        traceOK_extend hok htr1 hnb1 hwi1 hsz1 (fun d hd => le_of_eq (hds1 d hd))
      obtain ⟨s', h1, h2, h3, h4, h5, h6, h7, h8⟩ := ih s1 hw1 hc1 hlt1 hok1
      refine ⟨s', by rw [runOps_cons_ok ops happ]; exact h1, by rw [h2, hwi1],
        by rw [h3, hsz1], h4, h5, h6, ?_, h8⟩
      rw [hnb1] at h7
      omega

lemma map_isLast_replicate : ∀ (js : List JobInfo), (∀ j ∈ js, j.isLast = false) →
    js.map JobInfo.isLast = List.replicate js.length false := by
  intro js
  induction js with
  | nil => intro _; rfl
  | cons j js ih =>
    intro h
    simp only [List.map_cons, List.length_cons, List.replicate_succ]
    rw [h j (by simp), ih (fun x hx => h x (List.mem_cons_of_mem _ hx))]


lemma new_buffer_lt (idx bsz : Nat) (h : 0 < bsz) :
    (PooledWriter.new idx bsz).buffer.length < (PooledWriter.new idx bsz).bufferSize := h

/-- C1 (code bug): the claim and the doc comment on flush (src/src/lib.rs:249)
say flush() dispatches the currently buffered bytes as one non-terminal block
whatever their number, but flush() is flush_bytes(false), which dispatches only
when the buffer is exactly full.  After writing five bytes (fewer than the
65280-byte block size), flush dispatches nothing: the trace stays empty, the
five bytes stay buffered, and the call reports success. -/
theorem flush_does_not_dispatch_short_buffer :
    (runOps (PooledWriter.new 0 BGZF_BLOCK_SIZE) [Op.write [1, 2, 3, 4, 5]]).2 = none ∧
    (PooledWriter.flush (runOps (PooledWriter.new 0 BGZF_BLOCK_SIZE) [Op.write [1, 2, 3, 4, 5]]).1).2 = none ∧
    (PooledWriter.flush (runOps (PooledWriter.new 0 BGZF_BLOCK_SIZE) [Op.write [1, 2, 3, 4, 5]]).1).1.trace = [] ∧
    (PooledWriter.flush (runOps (PooledWriter.new 0 BGZF_BLOCK_SIZE) [Op.write [1, 2, 3, 4, 5]]).1).1.buffer = [1, 2, 3, 4, 5] :=
  ⟨rfl, rfl, rfl, rfl⟩

/-- C3 (code bug): the claim says a worker loop error is returned by stop_pool,
but pool_main combines the joined worker results with try_for_each and then
discards the combined result (src/src/lib.rs:565-568 ends with a semicolon and
no question mark).  try_for_each does observe the worker's error, yet stop_pool
returns success when the sink flushes succeed. -/
theorem stop_pool_discards_worker_error :
    tryForEach [Except.error (PErr.compressionError "compression failed")] =
      Except.error (PErr.compressionError "compression failed") ∧
    stop_pool [Except.error (PErr.compressionError "compression failed")] [Except.ok ()] =
      Except.ok () :=
  ⟨rfl, rfl⟩

/-- C8: PoolBuilder::new(queue_size, threads) aborts (assertion failure,
modelled as none) exactly when threads = 0 or queue_size ≤ threads, and returns
a builder exactly when threads ≥ 1 and queue_size > threads. -/
theorem poolBuilder_new_preconditions (q t : Nat) :
    ((PoolBuilder.new q t = none) ↔ (t = 0 ∨ q ≤ t)) ∧
    ((PoolBuilder.new q t).isSome = true ↔ (1 ≤ t ∧ t < q)) := by
  unfold PoolBuilder.new
  split_ifs with h1 h2 <;> constructor <;> simp <;> omega

/-- C9: a successful BgzfCompressor::compress(input, output, is_last) appends
exactly one compressed block for the input to the output, followed by the BGZF
EOF stream-terminator if and only if is_last is set. -/
theorem bgzf_compress_appends_block_and_eof
    (innerCompress : List Nat → Except String (List Nat))
    (input output : List Nat) (isLast : Bool) (out : List Nat)
    (h : BgzfCompressor.compress innerCompress input output isLast = Except.ok out) :
    ∃ block, innerCompress input = Except.ok block ∧
      out = output ++ block ++ (if isLast then bgzfEofMarker else []) := by
  unfold BgzfCompressor.compress at h
  cases hi : innerCompress input with
  | error e => rw [hi] at h; cases h
  | ok block =>
    rw [hi] at h
    simp only [Except.ok.injEq] at h
    exact ⟨block, rfl, h.symm⟩

/-- Witness for C9: a concrete inner compressor, input, output, and the
terminal flag set. -/
theorem bgzf_compress_appends_block_and_eof_witness :
    ∃ block,
      (fun i : List Nat => (Except.ok (7 :: i) : Except String (List Nat))) [1, 2] =
        Except.ok block ∧
      [9] ++ (7 :: [1, 2]) ++ bgzfEofMarker =
        [9] ++ block ++ (if true then bgzfEofMarker else []) :=
  bgzf_compress_appends_block_and_eof (fun i => Except.ok (7 :: i)) [1, 2] [9] true
    ([9] ++ (7 :: [1, 2]) ++ bgzfEofMarker) rfl

/-- C2: over a pooled writer's whole lifetime (any sequence of writes and
flushes, then close), close succeeds and dispatches exactly one terminal
block: the is_last flags of all dispatched jobs are false except for the very
last dispatched job, the one close dispatched. -/
theorem pooledWriter_terminal_unique (idx : Nat) (ops : List Op) :
    (PooledWriter.close (runOps (PooledWriter.new idx BGZF_BLOCK_SIZE) ops).1).2 = none ∧
    (jobsOf (PooledWriter.close (runOps (PooledWriter.new idx BGZF_BLOCK_SIZE) ops).1).1.trace).map
        JobInfo.isLast =
      List.replicate
        (jobsOf ((runOps (PooledWriter.new idx BGZF_BLOCK_SIZE) ops).1).trace).length false
        ++ [true] := by
  obtain ⟨s1, hrun, hwi, hsz, hw1, hc1, hlt1, hnb1, hok1⟩ :=
    runOps_live ops (PooledWriter.new idx BGZF_BLOCK_SIZE) rfl rfl
      (new_buffer_lt idx BGZF_BLOCK_SIZE (by decide)) (traceOK_new idx BGZF_BLOCK_SIZE)
  have hcl := close_live s1 hw1 hc1
  constructor
  · simp only [hrun, hcl]
  · simp only [hrun, hcl]
    rw [jobsOf_append]
    have hjobs2 : jobsOf [Event.enqueueReply s1.nextBlockId,
        Event.sendJob s1.nextBlockId s1.writerIndex s1.buffer true] =
        [⟨s1.nextBlockId, s1.writerIndex, s1.buffer, true⟩] := by
      simp [jobsOf]
    rw [hjobs2, List.map_append,
      map_isLast_replicate (jobsOf s1.trace) (fun j hj => (hok1.2.2.2 j hj).1)]
    simp

/-- C4: for every run of a pooled writer (any sequence of writes and flushes,
then close), every compression job in the trace is preceded by the enqueue of
its reply receiver on the sink's ordered queue, and the reply receivers are
enqueued in strictly increasing block order, so the receiver for block k
precedes the receiver for block k+1 in that sink's queue. -/
theorem reply_enqueued_before_job (idx : Nat) (ops : List Op) :
    okFromB []
      (PooledWriter.close (runOps (PooledWriter.new idx BGZF_BLOCK_SIZE) ops).1).1.trace = true ∧
    List.Chain' (· < ·)
      (enqIds (PooledWriter.close (runOps (PooledWriter.new idx BGZF_BLOCK_SIZE) ops).1).1.trace) := by
  obtain ⟨s1, hrun, hwi, hsz, hw1, hc1, hlt1, hnb1, hok1⟩ :=
    runOps_live ops (PooledWriter.new idx BGZF_BLOCK_SIZE) rfl rfl
      (new_buffer_lt idx BGZF_BLOCK_SIZE (by decide)) (traceOK_new idx BGZF_BLOCK_SIZE)
  have hcl := close_live s1 hw1 hc1
  constructor
  · simp only [hrun, hcl]
    rw [okFromB_append, hok1.1]
    simp [okFromB]
  · simp only [hrun, hcl]
    rw [enqIds_append]
    have h2 : enqIds [Event.enqueueReply s1.nextBlockId,
        Event.sendJob s1.nextBlockId s1.writerIndex s1.buffer true] = [s1.nextBlockId] := by
      simp [enqIds]
    rw [h2]
    apply chain_lt_append _ _ hok1.2.1 (List.chain'_singleton _)
    intro x hx y hy
    simp only [List.mem_singleton] at hy
    subst hy
    have := hok1.2.2.1 _ (mem_enqIds hx)
    simpa [eventId] using this

/-- C6: every compression job a pooled writer dispatches over its lifetime
(writes and flushes, then close; drop is the same operation as close) carries
at most BGZF_BLOCK_SIZE input bytes, the internal buffer's length never
exceeds BGZF_BLOCK_SIZE, and send_block sends exactly the buffer's current
contents as the job payload. -/
theorem block_size_ceiling (idx : Nat) (ops : List Op) (s : WState) (l : Bool)
    (hw : s.writerTxOpen = true) (hc : s.compressorTxOpen = true) :
    (∀ j ∈ jobsOf
        (PooledWriter.close (runOps (PooledWriter.new idx BGZF_BLOCK_SIZE) ops).1).1.trace,
      j.data.length ≤ BGZF_BLOCK_SIZE) ∧
    ((runOps (PooledWriter.new idx BGZF_BLOCK_SIZE) ops).1).buffer.length ≤ BGZF_BLOCK_SIZE ∧
    PooledWriter.drop s = PooledWriter.close s ∧
    (PooledWriter.send_block s l).1.trace =
      s.trace ++ [Event.enqueueReply s.nextBlockId,
        Event.sendJob s.nextBlockId s.writerIndex s.buffer l] := by
  obtain ⟨s1, hrun, hwi, hsz, hw1, hc1, hlt1, hnb1, hok1⟩ :=
    runOps_live ops (PooledWriter.new idx BGZF_BLOCK_SIZE) rfl rfl
      (new_buffer_lt idx BGZF_BLOCK_SIZE (by decide)) (traceOK_new idx BGZF_BLOCK_SIZE)
  have hcl := close_live s1 hw1 hc1
  have hsz' : s1.bufferSize = BGZF_BLOCK_SIZE := hsz
  refine ⟨?_, ?_, rfl, ?_⟩
  · intro j hj
    simp only [hrun, hcl] at hj
    rw [jobsOf_append] at hj
    rcases List.mem_append.mp hj with hj | hj
    · have := (hok1.2.2.2 j hj).2.1
      rw [hsz'] at this
      exact this
    · have hjobs2 : jobsOf [Event.enqueueReply s1.nextBlockId,
          Event.sendJob s1.nextBlockId s1.writerIndex s1.buffer true] =
          [⟨s1.nextBlockId, s1.writerIndex, s1.buffer, true⟩] := by
        simp [jobsOf]
      rw [hjobs2] at hj
      simp only [List.mem_singleton] at hj
      subst hj
      rw [hsz'] at hlt1
      exact le_of_lt hlt1
  · simp only [hrun]
    rw [hsz'] at hlt1
    exact le_of_lt hlt1
  · rw [send_block_open s l hw hc]

/-- Witness for C6: the send_block payload equation and the drop-equals-close
equation at a concrete writer state. -/
theorem block_size_ceiling_witness :
    PooledWriter.drop { writerIndex := 3, buffer := [1, 2], bufferSize := 4, nextBlockId := 5, trace := [], writerTxOpen := true, compressorTxOpen := true } =
      PooledWriter.close { writerIndex := 3, buffer := [1, 2], bufferSize := 4, nextBlockId := 5, trace := [], writerTxOpen := true, compressorTxOpen := true } ∧
    (PooledWriter.send_block { writerIndex := 3, buffer := [1, 2], bufferSize := 4, nextBlockId := 5, trace := [], writerTxOpen := true, compressorTxOpen := true } false).1.trace =
      [] ++ [Event.enqueueReply 5, Event.sendJob 5 3 [1, 2] false] :=
  ⟨(block_size_ceiling 0 [] _ false rfl rfl).2.2.1,
   (block_size_ceiling 0 [] _ false rfl rfl).2.2.2⟩

/-- C7: write(buf) returning Ok(n) always has n = buf.length, and from a live
writer state whose buffer is below capacity (as in every reachable state),
write consumes the whole slice and emits a non-terminal full block exactly
each time the internal buffer becomes exactly full: the dispatched payloads
are all exactly bufferSize bytes, their count is
(buffered + written) / bufferSize, and the final buffer holds the remainder. -/
theorem write_consumes_all_and_emits_on_full :
    (∀ (s : WState) (buf : List Nat) (s' : WState) (r : Nat),
      PooledWriter.write s buf = (s', Except.ok r) → r = buf.length) ∧
    (∀ (s : WState) (buf : List Nat),
      s.writerTxOpen = true → s.compressorTxOpen = true →
      s.buffer.length < s.bufferSize →
      ∃ (s' : WState) (ds : List (List Nat)),
        PooledWriter.write s buf = (s', Except.ok buf.length) ∧
        s'.trace = s.trace ++ pairSegs s.writerIndex s.nextBlockId ds ∧
        (∀ d ∈ ds, d.length = s.bufferSize) ∧
        ds.length = (s.buffer.length + buf.length) / s.bufferSize ∧
        s'.buffer.length = (s.buffer.length + buf.length) % s.bufferSize ∧
        s.buffer.length + buf.length = ds.length * s.bufferSize + s'.buffer.length) := by
  constructor
  · intro s buf s' r h
    unfold PooledWriter.write at h
    cases heq : PooledWriter.writeAux (buf.length + 1) s buf with
    | mk s1 e =>
      rw [heq] at h
      cases e with
      | none =>
        simp only [Prod.mk.injEq, Except.ok.injEq] at h
        exact h.2.symm
      | some e => simp at h
  · intro s buf hw hc hlt
    obtain ⟨s', ds, heq, hwi, hsz, hw', hc', hlt', hnb, htr, hds, hcons⟩ :=
      write_live s buf hw hc hlt
    have hszpos : 0 < s.bufferSize := Nat.lt_of_le_of_lt (Nat.zero_le _) hlt
    have hlt'' : s'.buffer.length < s.bufferSize := by rw [← hsz]; exact hlt'
    refine ⟨s', ds, heq, htr, hds, ?_, ?_, hcons⟩
    · rw [hcons, Nat.mul_comm, Nat.mul_add_div hszpos, Nat.div_eq_of_lt hlt'', Nat.add_zero]
    · rw [hcons, Nat.mul_comm, Nat.mul_add_mod, Nat.mod_eq_of_lt hlt'']

/-- Witness for C7: a concrete write of three bytes into a writer holding two
buffered bytes with block size four, which fills the buffer exactly once. -/
theorem write_consumes_all_and_emits_on_full_witness :
    ∃ (s' : WState) (ds : List (List Nat)),
      PooledWriter.write { writerIndex := 0, buffer := [9, 9], bufferSize := 4, nextBlockId := 0, trace := [], writerTxOpen := true, compressorTxOpen := true } [1, 2, 3] =
        (s', Except.ok 3) ∧
      s'.trace = [] ++ pairSegs 0 0 ds ∧
      (∀ d ∈ ds, d.length = 4) ∧
      ds.length = (2 + 3) / 4 ∧
      s'.buffer.length = (2 + 3) % 4 ∧
      2 + 3 = ds.length * 4 + s'.buffer.length :=
  write_consumes_all_and_emits_on_full.2 _ [1, 2, 3] rfl rfl (by decide)

lemma send_block_closed_writer (s : WState) (l : Bool) (hw : s.writerTxOpen = false) :
    PooledWriter.send_block s l =
      ({ s with buffer := [], nextBlockId := s.nextBlockId + 1 }, some WErr.channelSend) := by
  simp [PooledWriter.send_block, hw]

lemma send_block_closed_compressor (s : WState) (l : Bool) (hw : s.writerTxOpen = true)
    (hc : s.compressorTxOpen = false) :
    PooledWriter.send_block s l =
      ({ s with buffer := [], nextBlockId := s.nextBlockId + 1, trace := s.trace ++ [Event.enqueueReply s.nextBlockId] }, some WErr.channelSend) := by
  simp [PooledWriter.send_block, hw, hc]

/-- The trace only grows, and every newly appended event carries a block id at
or above the old next fresh id. -/
def TraceExt (s s' : WState) : Prop :=
  s.nextBlockId ≤ s'.nextBlockId ∧
  ∃ t, s'.trace = s.trace ++ t ∧ ∀ e ∈ t, s.nextBlockId ≤ eventId e

lemma traceExt_refl (s : WState) : TraceExt s s :=
  ⟨le_refl _, [], by simp, by simp⟩

lemma traceExt_trans {a b c : WState} (h1 : TraceExt a b) (h2 : TraceExt b c) :
    TraceExt a c := by
  obtain ⟨hn1, t1, ht1, hb1⟩ := h1
  obtain ⟨hn2, t2, ht2, hb2⟩ := h2
  refine ⟨le_trans hn1 hn2, t1 ++ t2, by rw [ht2, ht1, List.append_assoc], ?_⟩
  intro e he
  rcases List.mem_append.mp he with he | he
  · exact hb1 e he
  · exact le_trans hn1 (hb2 e he)

lemma traceExt_buffer_update (s : WState) (buf : List Nat) :
    TraceExt s { s with buffer := buf } :=
  ⟨le_refl _, [], by simp, by simp⟩

lemma send_block_traceExt (s : WState) (l : Bool) :
    TraceExt s (PooledWriter.send_block s l).1 := by
  cases hw : s.writerTxOpen with
  | false =>
    rw [send_block_closed_writer s l hw]
    exact ⟨Nat.le_succ _, [], by simp, by simp⟩
  | true =>
    cases hc : s.compressorTxOpen with
    | false =>
      rw [send_block_closed_compressor s l hw hc]
      exact ⟨Nat.le_succ _, [Event.enqueueReply s.nextBlockId], rfl,
        by intro e he; simp only [List.mem_singleton] at he; subst he; simp [eventId]⟩
    | true =>
      rw [send_block_open s l hw hc]
      refine ⟨Nat.le_succ _, [Event.enqueueReply s.nextBlockId,
        Event.sendJob s.nextBlockId s.writerIndex s.buffer l], rfl, ?_⟩
      intro e he
      rcases List.mem_cons.mp he with he | he
      · subst he; simp [eventId]
      · simp only [List.mem_singleton] at he; subst he; simp [eventId]

lemma flush_bytes_traceExt (s : WState) (l : Bool) :
    TraceExt s (PooledWriter.flush_bytes s l).1 := by
  unfold PooledWriter.flush_bytes
  split
  · exact send_block_traceExt s l
  · exact traceExt_refl s

lemma writeAux_traceExt : ∀ (fuel : Nat) (rem : List Nat) (s : WState),
    TraceExt s (PooledWriter.writeAux fuel s rem).1 := by
  intro fuel
  induction fuel with
  | zero =>
    intro rem s
    cases rem with
    | nil => exact traceExt_refl s
    | cons b bs => exact traceExt_refl s
  | succ fuel ih =>
    intro rem s
    cases rem with
    | nil => exact traceExt_refl s
    | cons b bs =>
      simp only [PooledWriter.writeAux]
      split
      · split
        · rename_i s2 heq
          have h2 := send_block_traceExt { s with buffer := s.buffer ++ List.take (min (b :: bs).length (s.bufferSize - s.buffer.length)) (b :: bs) } false
          rw [heq] at h2
          exact traceExt_trans (traceExt_trans (traceExt_buffer_update s _) h2) (ih _ s2)
        · rename_i s2 e heq
          have h2 := send_block_traceExt { s with buffer := s.buffer ++ List.take (min (b :: bs).length (s.bufferSize - s.buffer.length)) (b :: bs) } false
          rw [heq] at h2
          exact traceExt_trans (traceExt_buffer_update s _) h2
      · exact traceExt_trans (traceExt_buffer_update s _) (ih _ _)

lemma write_traceExt (s : WState) (buf : List Nat) :
    TraceExt s (PooledWriter.write s buf).1 := by
  unfold PooledWriter.write
  split
  · rename_i s' heq
    have h := writeAux_traceExt (buf.length + 1) buf s
    rw [heq] at h
    exact h
  · rename_i s' e heq
    have h := writeAux_traceExt (buf.length + 1) buf s
    rw [heq] at h
    exact h

lemma applyOp_traceExt (s : WState) (op : Op) : TraceExt s (applyOp s op).1 := by
  cases op with
  | write buf =>
    have h := write_traceExt s buf
    cases heqw : PooledWriter.write s buf with
    | mk s' r =>
      rw [heqw] at h
      cases r with
      | ok v =>
        have happ : applyOp s (Op.write buf) = (s', none) := by simp [applyOp, heqw]
        rw [happ]
        exact h
      | error e =>
        have happ : applyOp s (Op.write buf) = (s', some e) := by simp [applyOp, heqw]
        rw [happ]
        exact h
  | flush => exact flush_bytes_traceExt s false

lemma runOps_traceExt (ops : List Op) : ∀ s : WState, TraceExt s (runOps s ops).1 := by
  induction ops with
  | nil => intro s; exact traceExt_refl s
  | cons op ops ih =>
    intro s
    simp only [runOps]
    split
    · rename_i s1 heq
      have h1 := applyOp_traceExt s op
      rw [heq] at h1
      exact traceExt_trans h1 (ih s1)
    · rename_i s1 e heq
      have h1 := applyOp_traceExt s op
      rw [heq] at h1
      exact h1

/-- C10: block dispatch is not atomic on error.  From a state whose sink-queue
channel is live but whose compressor channel has no receiver, send_block
returns the ChannelSend error after having enqueued the reply receiver on the
sink's ordered queue, and no compression job for that block id is ever
dispatched, neither by this call nor by any later operation on the writer. -/
theorem send_block_error_leaves_reply_enqueued (s : WState) (l : Bool)
    (hw : s.writerTxOpen = true) (hc : s.compressorTxOpen = false)
    (hb : ∀ e ∈ s.trace, eventId e < s.nextBlockId) :
    (PooledWriter.send_block s l).2 = some WErr.channelSend ∧
    (PooledWriter.send_block s l).1.trace = s.trace ++ [Event.enqueueReply s.nextBlockId] ∧
    ∀ (ops : List Op) (j : JobInfo),
      j ∈ jobsOf (runOps (PooledWriter.send_block s l).1 ops).1.trace →
      j.blockId ≠ s.nextBlockId := by
  have hsb := send_block_closed_compressor s l hw hc
  refine ⟨by rw [hsb], by rw [hsb], ?_⟩
  intro ops j hj
  obtain ⟨hn, t, ht, hbt⟩ := runOps_traceExt ops (PooledWriter.send_block s l).1
  rw [ht] at hj
  have hev := mem_jobsOf hj
  rcases List.mem_append.mp hev with hev | hev
  · have htr1 : (PooledWriter.send_block s l).1.trace =
        s.trace ++ [Event.enqueueReply s.nextBlockId] := by rw [hsb]
    rw [htr1] at hev
    rcases List.mem_append.mp hev with hev | hev
    · have := hb _ hev
      simp only [eventId] at this
      omega
    · simp at hev
  · have hge := hbt _ hev
    have hnb : (PooledWriter.send_block s l).1.nextBlockId = s.nextBlockId + 1 := by rw [hsb]
    rw [hnb] at hge
    simp only [eventId] at hge
    omega

/-- Witness for C10: a concrete writer state holding one buffered byte, whose
compressor channel is closed, with two reply receivers already enqueued. -/
theorem send_block_error_leaves_reply_enqueued_witness :
    (PooledWriter.send_block { writerIndex := 0, buffer := [7], bufferSize := 4, nextBlockId := 2, trace := [Event.enqueueReply 0, Event.sendJob 0 0 [5] false, Event.enqueueReply 1], writerTxOpen := true, compressorTxOpen := false } false).2 = some WErr.channelSend ∧
    (PooledWriter.send_block { writerIndex := 0, buffer := [7], bufferSize := 4, nextBlockId := 2, trace := [Event.enqueueReply 0, Event.sendJob 0 0 [5] false, Event.enqueueReply 1], writerTxOpen := true, compressorTxOpen := false } false).1.trace =
      [Event.enqueueReply 0, Event.sendJob 0 0 [5] false, Event.enqueueReply 1] ++ [Event.enqueueReply 2] :=
  ⟨(send_block_error_leaves_reply_enqueued _ false rfl rfl (by decide)).1,
   (send_block_error_leaves_reply_enqueued _ false rfl rfl (by decide)).2.1⟩

lemma tryCompress_nil (comp : List Nat → Bool → Except String (List Nat)) (s : PState)
    (h : s.compressorQueue = []) : tryCompress comp s = CompTry.noWork := by
  unfold tryCompress
  rw [h]

lemma tryCompress_noWork_iff (comp : List Nat → Bool → Except String (List Nat)) (s : PState) :
    tryCompress comp s = CompTry.noWork ↔ s.compressorQueue = [] := by
  unfold tryCompress
  cases hq : s.compressorQueue with
  | nil => simp
  | cons job rest =>
    cases hcr : comp job.data job.isLast <;> simp [hcr]

lemma tryWrite_noWork_iff (s : PState) :
    tryWrite s = WriteTry.noWork ↔ s.writeAvailable = [] := by
  unfold tryWrite
  cases hwv : s.writeAvailable with
  | nil => simp
  | cons wi rest =>
    simp only [List.cons_ne_nil, iff_false]
    intro h
    split at h
    · split at h
      · split at h <;> simp at h
      · split at h <;> simp at h
    · simp at h

lemma workerStep_compressed (comp : List Nat → Bool → Except String (List Nat))
    (s s1 : PState) (hc : tryCompress comp s = CompTry.compressed s1) :
    workerStep comp s =
      (match tryWrite s1 with
        | WriteTry.wrote s2 => StepOut.worked s2
        | WriteTry.fault => StepOut.fault
        | WriteTry.blocked => StepOut.blocked
        | WriteTry.noWork => StepOut.worked s1) := by
  unfold workerStep
  rw [hc]

lemma workerStep_compFault (comp : List Nat → Bool → Except String (List Nat))
    (s : PState) (hc : tryCompress comp s = CompTry.fault) :
    workerStep comp s = StepOut.fault := by
  unfold workerStep
  rw [hc]

lemma workerStep_noComp (comp : List Nat → Bool → Except String (List Nat))
    (s : PState) (hc : tryCompress comp s = CompTry.noWork) :
    workerStep comp s =
      (match tryWrite s with
        | WriteTry.wrote s2 => StepOut.worked s2
        | WriteTry.fault => StepOut.fault
        | WriteTry.blocked => StepOut.blocked
        | WriteTry.noWork =>
          if s.shutdownDisconnected && s.writeAvailable.isEmpty &&
              s.compressorQueue.isEmpty && s.sinkQueues.all List.isEmpty then
            StepOut.exit
          else
            StepOut.sleep) := by
  unfold workerStep
  rw [hc]

lemma exit_condition_iff (s : PState) (hcq : s.compressorQueue = [])
    (hwa : s.writeAvailable = []) :
    (s.shutdownDisconnected && s.writeAvailable.isEmpty && s.compressorQueue.isEmpty &&
      s.sinkQueues.all List.isEmpty) = true ↔
    (s.shutdownDisconnected = true ∧ ∀ q ∈ s.sinkQueues, q = []) := by
  simp [hcq, hwa, List.all_eq_true, List.isEmpty_iff]

lemma workerStep_noWork (comp : List Nat → Bool → Except String (List Nat)) (s : PState)
    (hcq : s.compressorQueue = []) (hwa : s.writeAvailable = []) :
    workerStep comp s =
      (if s.shutdownDisconnected && s.writeAvailable.isEmpty && s.compressorQueue.isEmpty &&
          s.sinkQueues.all List.isEmpty then StepOut.exit else StepOut.sleep) := by
  rw [workerStep_noComp comp s (tryCompress_nil comp s hcq), (tryWrite_noWork_iff s).mpr hwa]

lemma workerStep_no_exit_comp (comp : List Nat → Bool → Except String (List Nat)) (s : PState)
    (hcq : s.compressorQueue ≠ []) : workerStep comp s ≠ StepOut.exit := by
  intro h
  rcases hc : tryCompress comp s with _ | s1 | _
  · exact hcq ((tryCompress_noWork_iff comp s).mp hc)
  · rw [workerStep_compressed comp s s1 hc] at h
    rcases htw : tryWrite s1 with _ | s2 | _ | _ <;> rw [htw] at h <;> simp at h
  · rw [workerStep_compFault comp s hc] at h
    simp at h

lemma workerStep_no_exit_write (comp : List Nat → Bool → Except String (List Nat)) (s : PState)
    (hcq : s.compressorQueue = []) (hwa : s.writeAvailable ≠ []) :
    workerStep comp s ≠ StepOut.exit := by
  intro h
  rw [workerStep_noComp comp s (tryCompress_nil comp s hcq)] at h
  rcases htw : tryWrite s with _ | s2 | _ | _
  · exact hwa ((tryWrite_noWork_iff s).mp htw)
  all_goals rw [htw] at h; simp at h

/-- C5: a worker's loop iteration breaks out of the loop exactly when it did no
compression work and no write work (both try-receives found their queues
empty) and, on that same iteration, the shutdown channel is disconnected, the
write-ready queue is empty, the compressor queue is empty, and every per-sink
ordered queue is empty; on a no-work iteration where any of these conditions
fails, the worker sleeps instead. -/
theorem worker_loop_exit_iff (comp : List Nat → Bool → Except String (List Nat)) (s : PState) :
    (workerStep comp s = StepOut.exit ↔
      (s.compressorQueue = [] ∧ s.writeAvailable = [] ∧ s.shutdownDisconnected = true ∧
        ∀ q ∈ s.sinkQueues, q = [])) ∧
    (s.compressorQueue = [] → s.writeAvailable = [] →
      ¬(s.shutdownDisconnected = true ∧ ∀ q ∈ s.sinkQueues, q = []) →
      workerStep comp s = StepOut.sleep) := by
  constructor
  · constructor
    · intro h
      by_cases hcq : s.compressorQueue = []
      · by_cases hwa : s.writeAvailable = []
        · rw [workerStep_noWork comp s hcq hwa] at h
          by_cases hcond : (s.shutdownDisconnected && s.writeAvailable.isEmpty &&
              s.compressorQueue.isEmpty && s.sinkQueues.all List.isEmpty) = true
          · have h2 := (exit_condition_iff s hcq hwa).mp hcond
            exact ⟨hcq, hwa, h2.1, h2.2⟩
          · rw [if_neg hcond] at h
            simp at h
        · exact absurd h (workerStep_no_exit_write comp s hcq hwa)
      · exact absurd h (workerStep_no_exit_comp comp s hcq)
    · rintro ⟨hcq, hwa, hsd, hsq⟩
      rw [workerStep_noWork comp s hcq hwa,
        if_pos ((exit_condition_iff s hcq hwa).mpr ⟨hsd, hsq⟩)]
  · intro hcq hwa hncond
    rw [workerStep_noWork comp s hcq hwa,
      if_neg (fun hcond => hncond ((exit_condition_iff s hcq hwa).mp hcond))]

/-- Witness for C5: on a no-work iteration with the shutdown channel
disconnected but a non-empty per-sink ordered queue, the worker sleeps. -/
theorem worker_loop_exit_iff_witness :
    workerStep (fun d _ => Except.ok d) { compressorQueue := [], writeAvailable := [], sinkQueues := [[0]], replies := [], sinks := [[]], sinkSendersDropped := false, shutdownDisconnected := true } = StepOut.sleep :=
  (worker_loop_exit_iff (fun d _ => Except.ok d) _).2 rfl rfl (by decide)
